import Mathlib

/-!
Verification of the better-gemini injection orchestrator.

Shallow embedding of the prompt channel (URL encode / extract / cleanup),
the session guard, the submission trigger, the readiness waiter, the
message listener and the orchestrator `main` flow, translated from
`src/background.js`, `src/content/injector.js` and
`src/content/injector-core.js`.

JavaScript strings are modelled as lists of Unicode scalar values
(`List Char`); bytes and code points as `Nat`.
-/

namespace BetterGemini

/-- JavaScript string model: a list of Unicode scalar values. -/
abbrev JSString := List Char

/-- Shorthand turning a Lean string literal into the model type. -/
def str (s : String) : JSString := s.toList

/-! ## Hex digits and bytes -/

/-- ASCII byte of the uppercase hex digit for `n < 16`
(as produced by `encodeURIComponent` style percent-escapes). -/
def hexDigitByte (n : Nat) : Nat :=
  if n < 10 then 0x30 + n else 0x37 + n

/-- Is this byte an ASCII hex digit (either case)? -/
def isHexByte (b : Nat) : Bool :=
  (0x30 ≤ b && b ≤ 0x39) || (0x41 ≤ b && b ≤ 0x46) || (0x61 ≤ b && b ≤ 0x66)

/-- Numeric value of an ASCII hex digit byte. -/
def hexByteVal (b : Nat) : Nat :=
  if b ≤ 0x39 then b - 0x30
  else if b ≤ 0x46 then b - 0x41 + 10
  else b - 0x61 + 10

/-! ## UTF-8 -/

/-- UTF-8 encoding of one Unicode code point, as a list of bytes. -/
def utf8EncodeChar (c : Nat) : List Nat :=
  if c < 0x80 then [c]
  else if c < 0x800 then [0xC0 + c / 64, 0x80 + c % 64]
  else if c < 0x10000 then
    [0xE0 + c / 4096, 0x80 + c / 64 % 64, 0x80 + c % 64]
  else
    [0xF0 + c / 262144, 0x80 + c / 4096 % 64, 0x80 + c / 64 % 64, 0x80 + c % 64]

/-- UTF-8 encoding of a sequence of code points. -/
def utf8EncodeAll (cs : List Nat) : List Nat := cs.flatMap utf8EncodeChar

/-- Is `b` a UTF-8 continuation byte? -/
def isCont (b : Nat) : Bool := 0x80 ≤ b && b < 0xC0

/-- Decode one UTF-8 scalar value from the head of a byte list, rejecting
overlong forms, surrogates and out-of-range values; returns the code point
and the remaining bytes. -/
def utf8DecodeOne : List Nat → Option (Nat × List Nat)
  | [] => none
  | b :: bs =>
    if b < 0x80 then some (b, bs)
    else if b < 0xC2 || 0xF4 < b then none
    else if b < 0xE0 then
      match bs with
      | b2 :: bs2 => if isCont b2 then some ((b - 0xC0) * 64 + (b2 - 0x80), bs2) else none
      | _ => none
    else if b < 0xF0 then
      match bs with
      | b2 :: b3 :: bs3 =>
        if isCont b2 && isCont b3 then
          let c := (b - 0xE0) * 4096 + (b2 - 0x80) * 64 + (b3 - 0x80)
          if c < 0x800 || (0xD800 ≤ c && c < 0xE000) then none else some (c, bs3)
        else none
      | _ => none
    else
      match bs with
      | b2 :: b3 :: b4 :: bs4 =>
        if isCont b2 && isCont b3 && isCont b4 then
          let c := (b - 0xF0) * 262144 + (b2 - 0x80) * 4096 + (b3 - 0x80) * 64 + (b4 - 0x80)
          if c < 0x10000 || 0x10FFFF < c then none else some (c, bs4)
        else none
      | _ => none

/-- Fuel-driven loop of the total UTF-8 decoder with U+FFFD replacement on
errors (as in the WHATWG decoder behind `URLSearchParams`); one unit of
fuel is spent per emitted code point, so fuel equal to the byte count
always suffices. -/
def utf8DecodeReplaceF : Nat → List Nat → List Nat
  | _, [] => []
  | 0, _ :: _ => []
  | f + 1, b :: bs =>
    match utf8DecodeOne (b :: bs) with
    | some (c, rest) => c :: utf8DecodeReplaceF f rest
    | none => 0xFFFD :: utf8DecodeReplaceF f bs

/-- Total UTF-8 decoder with U+FFFD replacement on errors. -/
def utf8DecodeReplace (l : List Nat) : List Nat := utf8DecodeReplaceF l.length l

/-! ## Percent decoding at the byte level (WHATWG percent-decode) -/

/-- WHATWG percent-decode on a byte sequence: a `%` followed by two hex
digits becomes the denoted byte; everything else passes through. -/
def percentDecodeBytes : List Nat → List Nat
  | [] => []
  | 0x25 :: h1 :: h2 :: rest =>
    if isHexByte h1 && isHexByte h2 then
      (hexByteVal h1 * 16 + hexByteVal h2) :: percentDecodeBytes rest
    else 0x25 :: percentDecodeBytes (h1 :: h2 :: rest)
  | b :: rest => b :: percentDecodeBytes rest

example : percentDecodeBytes [0x25, 0x32, 0x35] = [0x25] := by decide
example : utf8DecodeReplace [0xC3, 0xA9] = [0xE9] := by decide
example : str "ab" = ['a', 'b'] := by decide

/-! ## Percent encoders

`encodeURIComponent` leaves the RFC 2396 unreserved characters alone and
percent-escapes the UTF-8 bytes of everything else; the WHATWG
`application/x-www-form-urlencoded` serializer keeps only alphanumerics
and `*-._` and turns a space into `+`. -/

/-- Characters `encodeURIComponent` leaves unescaped. -/
def uriUnreserved (c : Nat) : Bool :=
  (0x41 ≤ c && c ≤ 0x5A) || (0x61 ≤ c && c ≤ 0x7A) || (0x30 ≤ c && c ≤ 0x39) ||
  c = 0x2D || c = 0x5F || c = 0x2E || c = 0x21 || c = 0x7E || c = 0x2A ||
  c = 0x27 || c = 0x28 || c = 0x29

/-- Characters the form-urlencoded serializer leaves unescaped
(alphanumerics and `*-._`). -/
def formSafe (c : Nat) : Bool :=
  (0x41 ≤ c && c ≤ 0x5A) || (0x61 ≤ c && c ≤ 0x7A) || (0x30 ≤ c && c ≤ 0x39) ||
  c = 0x2A || c = 0x2D || c = 0x2E || c = 0x5F

/-- Percent-escape triple `%XY` for one byte, as ASCII bytes. -/
def pctTriple (b : Nat) : List Nat :=
  [0x25, hexDigitByte (b / 16), hexDigitByte (b % 16)]

/-- Generic percent encoder over code points: characters satisfying
`safe` pass through, all others contribute the escapes of their UTF-8
bytes. Output is a list of ASCII bytes. -/
def pctEncode (safe : Nat → Bool) (cs : List Nat) : List Nat :=
  cs.flatMap fun c => if safe c then [c] else (utf8EncodeChar c).flatMap pctTriple

/-- ASCII bytes to model string. -/
def bytesToChars (bs : List Nat) : JSString := bs.map Char.ofNat

/-- Model string to code points. -/
def charsToPoints (s : JSString) : List Nat := s.map Char.toNat

/-- `encodeURIComponent` from `src/background.js` `buildGeminiUrl`. -/
def encodeURIComponentJS (s : JSString) : JSString :=
  bytesToChars (pctEncode uriUnreserved (charsToPoints s))

/-- The form-urlencoded serializer for one string (space becomes `+`). -/
def formUrlEncode (s : JSString) : JSString :=
  bytesToChars ((charsToPoints s).flatMap fun c =>
    if c = 0x20 then [0x2B]
    else if formSafe c then [c]
    else (utf8EncodeChar c).flatMap pctTriple)

/-- `+` to space, the first step of form-urlencoded value decoding. -/
def plusToSpace (s : JSString) : JSString :=
  s.map fun c => if c = '+' then ' ' else c

/-- UTF-8 bytes of a model string. -/
def utf8Bytes (s : JSString) : List Nat := utf8EncodeAll (charsToPoints s)

/-- Form-urlencoded string decoding as performed by `URLSearchParams` on
each name and value: `+` to space, percent-decode the bytes, UTF-8 decode
with replacement. -/
def formUrlDecode (s : JSString) : JSString :=
  bytesToChars (utf8DecodeReplace (percentDecodeBytes (utf8Bytes (plusToSpace s))))

/-! ## Splitting helpers for query strings and URLs -/

/-- Split a string at every occurrence of `sep` (the separator is dropped;
`n` separators yield `n + 1` pieces). -/
def splitOnChar (sep : Char) : JSString → List JSString
  | [] => [[]]
  | c :: rest =>
    let r := splitOnChar sep rest
    if c = sep then [] :: r
    else
      match r with
      | [] => [[c]]
      | h :: t => (c :: h) :: t

/-- Split a string at the first occurrence of `sep`: the part before it,
and the part after it when the separator occurs at all. -/
def splitAtFirst (sep : Char) : JSString → JSString × Option JSString
  | [] => ([], none)
  | c :: rest =>
    if c = sep then ([], some rest)
    else
      let r := splitAtFirst sep rest
      (c :: r.1, r.2)

/-- Join pieces with a separator character. -/
def joinSep (sep : Char) : List JSString → JSString
  | [] => []
  | [x] => x
  | x :: xs => x ++ sep :: joinSep sep xs

/-! ## URLSearchParams -/

/-- One `name=value` piece of a query string, decoded; a piece without
`=` is a name with an empty value. -/
def parsePair (piece : JSString) : JSString × JSString :=
  match splitAtFirst '=' piece with
  | (k, some v) => (formUrlDecode k, formUrlDecode v)
  | (k, none) => (formUrlDecode k, [])

/-- The WHATWG query-string parser behind `new URLSearchParams(s)`:
strip one leading `?`, split on `&`, drop empty pieces, decode each
piece into a name/value pair. -/
def parseSearch (s : JSString) : List (JSString × JSString) :=
  let s' := if s.head? = some '?' then s.tail else s
  ((splitOnChar '&' s').filter (· ≠ [])).map parsePair

/-- `URLSearchParams.get`: value of the first pair with the given name. -/
def searchParamsGet (name : JSString) (s : JSString) : Option JSString :=
  ((parseSearch s).find? (fun p => p.1 = name)).map (fun p => p.2)

example : parseSearch (str "?a=1&bg_prompt=x%20y") =
    [(str "a", str "1"), (str "bg_prompt", str "x y")] := by decide
example : searchParamsGet (str "bg_prompt") (str "other=1&bg_prompt=hi") =
    some (str "hi") := by decide

/-! ## decodeURIComponent

JavaScript `decodeURIComponent` throws a `URIError` on a `%` not followed
by two hex digits, and on percent-escapes whose bytes are not valid
UTF-8; modelled as `Option`. -/

/-- Is this character an ASCII hex digit? -/
def isHexChar (c : Char) : Bool := isHexByte c.toNat

/-- Tokenize a string for `decodeURIComponent`: each `%XY` escape becomes
a byte token, any other character a character token; a malformed escape
is an error. -/
def pctTokens : JSString → Option (List (Char ⊕ Nat))
  | [] => some []
  | '%' :: h1 :: h2 :: rest =>
    if isHexChar h1 && isHexChar h2 then
      (pctTokens rest).map (.inr (hexByteVal h1.toNat * 16 + hexByteVal h2.toNat) :: ·)
    else none
  | '%' :: _ => none
  | c :: rest => (pctTokens rest).map (.inl c :: ·)

/-- Consume the leading run of byte tokens. -/
def byteRun : List (Char ⊕ Nat) → List Nat × List (Char ⊕ Nat)
  | .inr b :: rest =>
    let r := byteRun rest
    (b :: r.1, r.2)
  | other => ([], other)

/-- Strict UTF-8 decode of a whole byte list. -/
def utf8DecodeStrictF : Nat → List Nat → Option (List Nat)
  | _, [] => some []
  | 0, _ :: _ => none
  | f + 1, l =>
    match utf8DecodeOne l with
    | some (c, rest) => (utf8DecodeStrictF f rest).map (c :: ·)
    | none => none

/-- Strict UTF-8 decode, erroring on any malformed sequence. -/
def utf8DecodeStrict (l : List Nat) : Option (List Nat) := utf8DecodeStrictF l.length l

/-- Decode a token list: raw characters pass through, maximal runs of
escape bytes must form valid UTF-8. -/
def decodeTokensF : Nat → List (Char ⊕ Nat) → Option JSString
  | _, [] => some []
  | 0, _ :: _ => none
  | f + 1, .inl c :: rest => (decodeTokensF f rest).map (c :: ·)
  | f + 1, .inr b :: rest =>
    let r := byteRun (.inr b :: rest)
    match utf8DecodeStrict r.1 with
    | some cs => (decodeTokensF f r.2).map (bytesToChars cs ++ ·)
    | none => none

/-- JavaScript `decodeURIComponent`, returning `none` where it throws. -/
def decodeURIComponentJS (s : JSString) : Option JSString := do
  let ts ← pctTokens s
  decodeTokensF ts.length ts

example : decodeURIComponentJS (str "a%20b") = some (str "a b") := by decide
example : decodeURIComponentJS (str "100%") = none := by decide
example : decodeURIComponentJS (str "%E4%B8%96") = some (str "世") := by decide
example : decodeURIComponentJS (str "%ZZ") = none := by decide

/-! ## Prompt channel (src/content/injector-core.js, src/background.js) -/

/-- `CONFIG.URL_PARAM` from `injector-core.js`. -/
def URL_PARAM : JSString := str "bg_prompt"

/-- `getPromptFromURL` from `src/content/injector-core.js` lines 46-55:
read the `bg_prompt` query parameter with `URLSearchParams`, return null
when it is missing or empty, then `decodeURIComponent` it, returning
null when that throws. -/
def getPromptFromURL (search : JSString) : Option JSString :=
  match searchParamsGet URL_PARAM search with
  | none => none
  | some encodedPrompt =>
    if encodedPrompt = [] then none
    else decodeURIComponentJS encodedPrompt

/-- `GEMINI_BASE_URL` from `src/background.js`. -/
def GEMINI_BASE_URL : JSString := str "https://gemini.google.com/app"

/-- `buildGeminiUrl` from `src/background.js` lines 71-77. -/
def buildGeminiUrl (prompt : JSString) : JSString :=
  GEMINI_BASE_URL ++ str "?" ++ URL_PARAM ++ str "=" ++ encodeURIComponentJS prompt

/-- The query string of an URL: what follows the first `?` and stops at
the first `#` (the string `window.location.search` holds, without the
leading `?`). -/
def hrefSearch (href : JSString) : JSString :=
  match splitAtFirst '?' (splitAtFirst '#' href).1 with
  | (_, some q) => q
  | (_, none) => []

example : getPromptFromURL (hrefSearch (buildGeminiUrl (str "hello world"))) =
    some (str "hello world") := by decide
example : getPromptFromURL (hrefSearch (buildGeminiUrl (str "100%"))) = none := by decide

/-! ## URL record and cleanup (new URL / searchParams.delete / toString) -/

/-- Parsed components of a URL as far as cleanup is concerned: everything
before the query, the parsed query pairs, and the fragment. -/
structure URLRec where
  base : JSString
  params : List (JSString × JSString)
  fragment : Option JSString
  deriving DecidableEq, Repr

/-- Parse a URL string into the components relevant to `cleanupURL`:
the fragment starts at the first `#`, the query at the first `?` before
that, and the query parses as `URLSearchParams` does. -/
def parseURL (href : JSString) : URLRec :=
  let hs := splitAtFirst '#' href
  let qs := splitAtFirst '?' hs.1
  { base := qs.1
    params := match qs.2 with
      | some q => parseSearch q
      | none => []
    fragment := hs.2 }

/-- The form-urlencoded serializer over a pair list, as used by
`URLSearchParams` when the list is mutated. -/
def serializeQuery (ps : List (JSString × JSString)) : JSString :=
  joinSep '&' (ps.map fun p => formUrlEncode p.1 ++ '=' :: formUrlEncode p.2)

/-- `url.toString()` after a `searchParams` mutation: the query is
re-serialized from the pair list, and dropped entirely when the list is
empty. -/
def serializeURL (r : URLRec) : JSString :=
  r.base ++
  (if r.params = [] then [] else '?' :: serializeQuery r.params) ++
  (match r.fragment with
   | some f => '#' :: f
   | none => [])

/-- `searchParams.delete(name)` on the parsed pair list. -/
def deleteParam (name : JSString) (ps : List (JSString × JSString)) :
    List (JSString × JSString) :=
  ps.filter fun p => p.1 ≠ name

/-- `cleanupURL` from `src/content/injector-core.js` lines 57-61:
`new URL(urlString)`, `url.searchParams.delete('bg_prompt')`,
`url.toString()`. -/
def cleanupURL (urlString : JSString) : JSString :=
  let u := parseURL urlString
  serializeURL { u with params := deleteParam URL_PARAM u.params }

example : cleanupURL (str "https://gemini.google.com/app?bg_prompt=test") =
    str "https://gemini.google.com/app" := by decide
example : cleanupURL (str "https://gemini.google.com/app?other=value&bg_prompt=test") =
    str "https://gemini.google.com/app?other=value" := by decide
example : cleanupURL (str "https://gemini.google.com/app?bg_prompt=test#section") =
    str "https://gemini.google.com/app#section" := by decide

/-! ## Document model and locator resolver -/

/-- A document snapshot: which element (by an abstract id) each CSS
selector currently resolves to, and whether `document.body` exists. -/
structure Doc where
  querySelector : JSString → Option Nat
  hasBody : Bool

/-- Substring containment, modelling JavaScript `String.includes`. -/
def containsSub (needle hay : JSString) : Bool :=
  (List.range (hay.length + 1)).any fun i => (hay.drop i).take needle.length = needle

example : containsSub (str "oog") (str "google") = true := by decide
example : containsSub (str "xyz") (str "google") = false := by decide

/-- `queryWithSelectors` from `injector-core.js` lines 63-69: first
selector in list order that matches wins. -/
def queryWithSelectors (selectors : List JSString) (doc : Doc) : Option Nat :=
  match selectors with
  | [] => none
  | sel :: rest =>
    match doc.querySelector sel with
    | some e => some e
    | none => queryWithSelectors rest doc

/-! ## CONFIG selectors and timing (injector-core.js lines 7-44) -/

def INPUT_FIELD_SELECTORS : List JSString :=
  [str "div[contenteditable=\x22true\x22]",
   str ".ql-editor[contenteditable=\x22true\x22]",
   str "[data-placeholder=\x22Enter a prompt here\x22]",
   str "rich-textarea div[contenteditable=\x22true\x22]"]

def SEND_BUTTON_SELECTORS : List JSString :=
  [str "button[aria-label=\x22Send message\x22]",
   str "button[aria-label=\x22Send\x22]",
   str "button[data-testid=\x22send-button\x22]",
   str ".send-button",
   str "button[mattooltip=\x22Send message\x22]"]

def LOGGED_IN_INDICATORS : List JSString :=
  [str "div[contenteditable=\x22true\x22]",
   str "rich-textarea",
   str "[data-placeholder=\x22Enter a prompt here\x22]"]

def LOGIN_PAGE_PATTERNS : List JSString :=
  [str "accounts.google.com/signin",
   str "accounts.google.com/v3/signin",
   str "accounts.google.com/ServiceLogin"]

def MAX_ATTEMPTS : Nat := 3
def DOM_READY_TIMEOUT : Nat := 10000

/-! ## Session guard (injector-core.js lines 83-112) -/

/-- `isUserLoggedOut`: login-page URL pattern wins; else any logged-in
indicator in the document means logged in; else a still-loading Gemini
page, or an unrelated page, are both treated as not logged out. -/
def isUserLoggedOut (currentUrl : JSString) (doc : Doc) : Bool :=
  if LOGIN_PAGE_PATTERNS.any (fun p => containsSub p currentUrl) then true
  else if LOGGED_IN_INDICATORS.any (fun sel => (doc.querySelector sel).isSome) then false
  else if containsSub (str "gemini.google.com") currentUrl then false
  else false

/-! ## Submission trigger (injector.js lines 459-497) -/

/-- State of the send button as found by one attempt. -/
inductive ButtonState where
  | absent
  | present (disabledProp : Bool) (ariaDisabled : Option JSString)
  deriving DecidableEq

/-- The disabled test of `clickSendButton`:
`sendButton.disabled || sendButton.getAttribute('aria-disabled') === 'true'`. -/
def buttonDisabled (disabledProp : Bool) (ariaDisabled : Option JSString) : Bool :=
  disabledProp || ariaDisabled = some (str "true")

/-- Terminal outcome of `clickSendButton`, with the attempt number at
which the run ended; the two exhaustion outcomes correspond to the two
distinct terminal `logError` reports in the source. -/
inductive SubmitOutcome where
  | clicked (attempt : Nat)
  | notFoundExhausted (attempt : Nat)
  | disabledExhausted (attempt : Nat)
  deriving DecidableEq

/-- `clickSendButton(attempt)` from `injector.js`: find the button; if
present and enabled, dispatch a click; if disabled or absent, retry
after a delay while `attempt < CONFIG.RETRY.MAX_ATTEMPTS`; otherwise
report the matching terminal failure. `btn n` is the button state the
`n`-th attempt observes. -/
def clickSendButtonF (fuel : Nat) (btn : Nat → ButtonState) (attempt maxAttempts : Nat) :
    SubmitOutcome :=
  match fuel with
  | 0 => .notFoundExhausted attempt
  | f + 1 =>
    match btn attempt with
    | .present d aria =>
      if buttonDisabled d aria then
        if attempt < maxAttempts then clickSendButtonF f btn (attempt + 1) maxAttempts
        else .disabledExhausted attempt
      else .clicked attempt
    | .absent =>
      if attempt < maxAttempts then clickSendButtonF f btn (attempt + 1) maxAttempts
      else .notFoundExhausted attempt

/-- `clickSendButton` entered at a given attempt number; recursion depth
is bounded by the retry budget, so fuel `maxAttempts + 1 - attempt`
always suffices. -/
def clickSendButton (btn : Nat → ButtonState) (attempt maxAttempts : Nat) :
    SubmitOutcome :=
  clickSendButtonF (maxAttempts + 1 - attempt) btn attempt maxAttempts

/-- The attempt number an outcome carries. -/
def SubmitOutcome.attempt : SubmitOutcome → Nat
  | .clicked a => a
  | .notFoundExhausted a => a
  | .disabledExhausted a => a

/-- Did the trigger report success? (`clickSendButton`'s boolean). -/
def SubmitOutcome.success : SubmitOutcome → Bool
  | .clicked _ => true
  | _ => false

/-! ## Readiness waiter (injector.js lines 282-328) -/

/-- The evolution of the document during one wait: the snapshot at call
time, whether `document.body` exists, and the mutation batches the
observer would deliver, each with the time it fires and the document
snapshot it observes. -/
structure DocTimeline where
  initial : Doc
  events : List (Nat × Doc)

/-- Result of a `waitForElement` run: how it ended, at what time, whether
a mutation subscription was ever created and whether one is still
connected afterwards. -/
structure WaitResult where
  outcome : Except JSString Nat
  endTime : Nat
  subscribed : Bool
  observerConnected : Bool

/-- First mutation event strictly before the timeout whose snapshot
matches one of the selectors. -/
def firstMatchBefore (selectors : List JSString) (timeout : Nat)
    (events : List (Nat × Doc)) : Option (Nat × Nat) :=
  match events with
  | [] => none
  | (t, d) :: rest =>
    if t < timeout then
      match queryWithSelectors selectors d with
      | some e => some (t, e)
      | none => firstMatchBefore selectors timeout rest
    else firstMatchBefore selectors timeout rest

/-- `waitForElement`: resolve synchronously when the element already
exists; otherwise reject when the body is missing; otherwise observe
mutations and race against a `setTimeout` of the configured duration,
disconnecting the observer both on match and on timeout. -/
def waitForElement (selectors : List JSString) (tl : DocTimeline) (timeout : Nat) :
    WaitResult :=
  match queryWithSelectors selectors tl.initial with
  | some e => ⟨.ok e, 0, false, false⟩
  | none =>
    if tl.initial.hasBody then
      match firstMatchBefore selectors timeout tl.events with
      | some (t, e) => ⟨.ok e, t, true, false⟩
      | none => ⟨.error (str "Element not found within timeout"), timeout, true, false⟩
    else ⟨.error (str "Document body not available"), 0, false, false⟩

/-! ## Message listener (injector.js lines 635-655) -/

/-- An inbound runtime message: `action` and `prompt` fields, each
possibly absent. -/
structure Message where
  action : Option JSString
  prompt : Option JSString

/-- A reply passed to `sendResponse`. -/
inductive Reply where
  | successReply (success : Bool)
  | statusReply (status : JSString)
  deriving DecidableEq

/-- The truthiness test `message.prompt` used by the listener: a missing
prompt and an empty string are both falsy. -/
def promptTruthy : Option JSString → Bool
  | none => false
  | some p => p ≠ []

/-- The `chrome.runtime.onMessage` listener of `injector.js`: the list of
`sendResponse` calls it makes (in order), paired with whether the reply
was produced asynchronously from the injection promise. `injectOutcome`
is the boolean `injectPromptFromMessage` settles with. -/
def onMessageListener (m : Message) (injectOutcome : Bool) : List (Reply × Bool) :=
  if m.action = some (str "injectPrompt") && promptTruthy m.prompt then
    [(.successReply injectOutcome, true)]
  else if m.action = some (str "ping") then
    [(.statusReply (str "alive"), false)]
  else
    [(.statusReply (str "unknown_action"), false)]

/-! ## Orchestrator: main (injector.js lines 514-578) -/

/-- The environment of one orchestration run: the page URL (`href` and
its derived `search`), the document snapshot at the session-guard check,
the timeline the readiness waiter observes, and the button states the
submission trigger encounters. -/
structure MainEnv where
  href : JSString
  docAtGuard : Doc
  timeline : DocTimeline
  button : Nat → ButtonState
  injectOk : Bool

/-- How a `main` run terminated. -/
inductive MainOutcome where
  | abortedNoPrompt
  | abortedLoggedOut
  | abortedError
  | abortedInjectFailed
  | completed (submitted : Bool)
  deriving DecidableEq

/-- Observable trace of one `main` run. -/
structure MainTrace where
  outcome : MainOutcome
  injectAttempted : Bool
  cleanupCalled : Bool
  finalHref : JSString

/-- The `main` orchestration flow of `injector.js`: extract the prompt
(idle when falsy); abort without cleanup when the session guard says
logged out; wait for the input field, aborting through the catch block
(with cleanup) when the waiter rejects; inject, returning without
cleanup when the injector reports failure; attempt submission; clean the
URL whether or not submission succeeded. -/
def mainRun (env : MainEnv) : MainTrace :=
  match getPromptFromURL (hrefSearch env.href) with
  | none => ⟨.abortedNoPrompt, false, false, env.href⟩
  | some prompt =>
    if prompt = [] then ⟨.abortedNoPrompt, false, false, env.href⟩
    else if isUserLoggedOut env.href env.docAtGuard then
      ⟨.abortedLoggedOut, false, false, env.href⟩
    else
      match (waitForElement INPUT_FIELD_SELECTORS env.timeline DOM_READY_TIMEOUT).outcome with
      | .error _ => ⟨.abortedError, false, true, cleanupURL env.href⟩
      | .ok _ =>
        if env.injectOk then
          let submitted := (clickSendButton env.button 1 MAX_ATTEMPTS).success
          ⟨.completed submitted, true, true, cleanupURL env.href⟩
        else ⟨.abortedInjectFailed, true, false, env.href⟩

/-! ## Concrete scenarios used to instantiate the theorems -/

/-- Unicode scalar values: what a `Char` may hold. -/
def validScalar (n : Nat) : Prop := n < 0xD800 ∨ (0xE000 ≤ n ∧ n < 0x110000)

/-- Form-urlencoded safe set extended with the space (the shape of the
serializer output after `+` has been turned back into a space). -/
def formSafeSp (c : Nat) : Bool := formSafe c || c = 0x20

/-- A document in which no selector matches anything. -/
def emptyDoc : Doc := ⟨fun _ => none, true⟩

/-- A document where the first configured input-field selector (which is
also the first logged-in indicator) matches element `7`. -/
def inputDoc : Doc :=
  ⟨fun sel => if sel = str "div[contenteditable=\x22true\x22]" then some 7 else none, true⟩

/-- A run during which the input field never appears. -/
def neverTimeline : DocTimeline := ⟨emptyDoc, []⟩

/-- A run during which the input field is present from the start. -/
def readyTimeline : DocTimeline := ⟨inputDoc, []⟩

/-- The send button is never found. -/
def absentButton : Nat → ButtonState := fun _ => .absent

/-- The send button is always found but disabled. -/
def disabledButton : Nat → ButtonState := fun _ => .present true none

/-- An orchestration run in which the page is fine but the text injector
reports failure. -/
def envInjectFail : MainEnv :=
  ⟨str "https://gemini.google.com/app?bg_prompt=hello", inputDoc, readyTimeline,
   absentButton, false⟩

/-- An orchestration run that lands on a Google login page. -/
def envLoggedOut : MainEnv :=
  ⟨str "https://accounts.google.com/signin?bg_prompt=hello", emptyDoc, readyTimeline,
   absentButton, true⟩

/-- An orchestration run in which the input field never appears. -/
def envWaitTimeout : MainEnv :=
  ⟨str "https://gemini.google.com/app?bg_prompt=hello", inputDoc, neverTimeline,
   absentButton, true⟩

/-! # Lemmas -/

/-! ## Characters -/

theorem toNat_ofNat_lt (n : Nat) (h : n < 0xD800) : (Char.ofNat n).toNat = n := by
  simp [Char.ofNat, Nat.isValidChar, h]
  simp [Char.ofNatAux, Char.toNat, UInt32.toNat]

theorem charValidScalar (c : Char) : validScalar c.toNat := by
  have := c.valid
  simp [UInt32.isValidChar, Nat.isValidChar] at this
  exact this

theorem charsToPoints_valid (s : JSString) : ∀ c ∈ charsToPoints s, validScalar c := by
  intro c hc
  simp [charsToPoints] at hc
  obtain ⟨a, _, rfl⟩ := hc
  exact charValidScalar a

theorem bytesToChars_points (bs : List Nat) (h : ∀ b ∈ bs, b < 0xD800) :
    charsToPoints (bytesToChars bs) = bs := by
  unfold charsToPoints bytesToChars
  rw [List.map_map]
  induction bs with
  | nil => rfl
  | cons b rest ih =>
    simp only [List.map_cons, Function.comp]
    rw [toNat_ofNat_lt b (h b (by simp))]
    have := ih (fun x hx => h x (by simp [hx]))
    simpa using this

theorem bytesToChars_points_inv (s : JSString) : bytesToChars (charsToPoints s) = s := by
  unfold charsToPoints bytesToChars
  rw [List.map_map]
  have : Char.ofNat ∘ Char.toNat = id := funext Char.ofNat_toNat
  rw [this, List.map_id]

/-! ## UTF-8 facts -/

theorem utf8EncodeChar_ne_nil (n : Nat) : utf8EncodeChar n ≠ [] := by
  unfold utf8EncodeChar
  repeat' split
  all_goals simp

theorem utf8EncodeChar_lt (n : Nat) (h : n < 0x110000) :
    ∀ b ∈ utf8EncodeChar n, b < 256 := by
  intro b hb
  unfold utf8EncodeChar at hb
  split at hb
  · simp at hb; omega
  · split at hb
    · simp at hb; rcases hb with h | h <;> omega
    · split at hb
      · simp at hb; rcases hb with h | h | h <;> omega
      · simp at hb; rcases hb with h | h | h | h <;> omega

theorem utf8DecodeOne_encode (n : Nat) (h : validScalar n) (rest : List Nat) :
    utf8DecodeOne (utf8EncodeChar n ++ rest) = some (n, rest) := by
  unfold validScalar at h
  unfold utf8EncodeChar
  by_cases h1 : n < 0x80
  · simp [h1, utf8DecodeOne]
  · by_cases h2 : n < 0x800
    · simp only [if_neg h1, if_pos h2, List.cons_append, List.nil_append]
      simp only [utf8DecodeOne, isCont]
      have e1 : ¬ (0xC0 + n / 64 < 0x80) := by omega
      have e2 : ¬ (0xC0 + n / 64 < 0xC2 || 0xF4 < 0xC0 + n / 64) := by
        simp; omega
      have e3 : 0xC0 + n / 64 < 0xE0 := by omega
      simp only [e1, if_neg, e2, if_pos e3, if_false]
      have e4 : (0x80 ≤ 0x80 + n % 64 && 0x80 + n % 64 < 0xC0) = true := by
        simp; omega
      simp [e4]
      omega
    · by_cases h3 : n < 0x10000
      · simp only [if_neg h1, if_neg h2, if_pos h3, List.cons_append, List.nil_append]
        simp only [utf8DecodeOne, isCont]
        have e1 : ¬ (0xE0 + n / 4096 < 0x80) := by omega
        have e2 : ¬ (0xE0 + n / 4096 < 0xC2 || 0xF4 < 0xE0 + n / 4096) := by simp; omega
        have e3 : ¬ (0xE0 + n / 4096 < 0xE0) := by omega
        have e4 : 0xE0 + n / 4096 < 0xF0 := by omega
        simp only [e1, e2, e3, e4, if_neg, if_pos, if_false]
        have e5 : (0x80 ≤ 0x80 + n / 64 % 64 && 0x80 + n / 64 % 64 < 0xC0) = true := by
          simp; omega
        have e6 : (0x80 ≤ 0x80 + n % 64 && 0x80 + n % 64 < 0xC0) = true := by simp; omega
        simp only [e5, e6, Bool.and_self, if_pos]
        have key : (0xE0 + n / 4096 - 0xE0) * 4096 + (0x80 + n / 64 % 64 - 0x80) * 64 +
            (0x80 + n % 64 - 0x80) = n := by omega
        rw [key]
        have e7 : ¬ (n < 0x800 || (0xD800 ≤ n && n < 0xE000)) := by simp; omega
        simp [e7]
      · simp only [if_neg h1, if_neg h2, if_neg h3, List.cons_append, List.nil_append]
        simp only [utf8DecodeOne, isCont]
        have e1 : ¬ (0xF0 + n / 262144 < 0x80) := by omega
        have e2 : ¬ (0xF0 + n / 262144 < 0xC2 || 0xF4 < 0xF0 + n / 262144) := by
          simp; omega
        have e3 : ¬ (0xF0 + n / 262144 < 0xE0) := by omega
        have e4 : ¬ (0xF0 + n / 262144 < 0xF0) := by omega
        simp only [e1, e2, e3, e4, if_neg, if_false]
        have e5 : (0x80 ≤ 0x80 + n / 4096 % 64 && 0x80 + n / 4096 % 64 < 0xC0) = true := by
          simp; omega
        have e6 : (0x80 ≤ 0x80 + n / 64 % 64 && 0x80 + n / 64 % 64 < 0xC0) = true := by
          simp; omega
        have e7 : (0x80 ≤ 0x80 + n % 64 && 0x80 + n % 64 < 0xC0) = true := by simp; omega
        simp only [e5, e6, e7, Bool.and_self, if_pos]
        have key : (0xF0 + n / 262144 - 0xF0) * 262144 + (0x80 + n / 4096 % 64 - 0x80) * 4096 +
            (0x80 + n / 64 % 64 - 0x80) * 64 + (0x80 + n % 64 - 0x80) = n := by omega
        rw [key]
        have e8 : ¬ (n < 0x10000 || 0x10FFFF < n) := by simp; omega
        simp [e8]

theorem utf8DecodeReplaceF_encodeAll (cs : List Nat) (fuel : Nat)
    (hv : ∀ c ∈ cs, validScalar c) (hf : (utf8EncodeAll cs).length ≤ fuel) :
    utf8DecodeReplaceF fuel (utf8EncodeAll cs) = cs := by
  induction cs generalizing fuel with
  | nil => cases fuel <;> rfl
  | cons c cs ih =>
    have hcv : validScalar c := hv c (by simp)
    have hrest : ∀ x ∈ cs, validScalar x := fun x hx => hv x (by simp [hx])
    have hne := utf8EncodeChar_ne_nil c
    have hall : utf8EncodeAll (c :: cs) = utf8EncodeChar c ++ utf8EncodeAll cs := by
      simp [utf8EncodeAll]
    cases fuel with
    | zero =>
      exfalso
      rw [hall, List.length_append] at hf
      have := List.length_pos.mpr hne
      omega
    | succ f =>
      rw [hall]
      cases he : utf8EncodeChar c with
      | nil => exact absurd he hne
      | cons b bs =>
        have hdec := utf8DecodeOne_encode c hcv (utf8EncodeAll cs)
        rw [he] at hdec
        simp only [List.cons_append] at hdec ⊢
        rw [utf8DecodeReplaceF, hdec]
        have hlen : (utf8EncodeAll cs).length ≤ f := by
          rw [hall, he] at hf
          simp [List.length_append] at hf
          omega
        show c :: utf8DecodeReplaceF f (utf8EncodeAll cs) = c :: cs
        rw [ih f hrest hlen]

theorem utf8DecodeReplace_encodeAll (cs : List Nat) (hv : ∀ c ∈ cs, validScalar c) :
    utf8DecodeReplace (utf8EncodeAll cs) = cs :=
  utf8DecodeReplaceF_encodeAll cs _ hv (Nat.le_refl _)

theorem utf8EncodeAll_ascii (bs : List Nat) (h : ∀ b ∈ bs, b < 0x80) :
    utf8EncodeAll bs = bs := by
  induction bs with
  | nil => rfl
  | cons b rest ih =>
    have hb : b < 0x80 := h b (by simp)
    simp only [utf8EncodeAll, List.flatMap_cons]
    rw [utf8EncodeChar, if_pos hb]
    have := ih (fun x hx => h x (by simp [hx]))
    simp only [utf8EncodeAll] at this
    simp [this]

/-! ## Percent decoding of encoder output -/

theorem pd_safe (b : Nat) (hb : b ≠ 0x25) (rest : List Nat) :
    percentDecodeBytes (b :: rest) = b :: percentDecodeBytes rest := by
  rw [percentDecodeBytes.eq_def]
  split
  · rename_i h; exact absurd h (List.cons_ne_nil _ _)
  · rename_i h; exfalso; injection h with h1 _; exact hb h1
  · rename_i h; injection h with h1 h2; rw [h1, h2]

theorem hexDigit_hex (n : Nat) (h : n < 16) : isHexByte (hexDigitByte n) = true := by
  unfold isHexByte hexDigitByte
  split <;> (simp; omega)

theorem hexDigit_val (n : Nat) (h : n < 16) : hexByteVal (hexDigitByte n) = n := by
  unfold hexByteVal hexDigitByte
  split <;> (repeat' split) <;> omega

theorem hexDigit_range (n : Nat) (h : n < 16) :
    (0x30 ≤ hexDigitByte n ∧ hexDigitByte n ≤ 0x39) ∨
      (0x41 ≤ hexDigitByte n ∧ hexDigitByte n ≤ 0x46) := by
  unfold hexDigitByte
  split <;> omega

theorem pd_triple (b : Nat) (hb : b < 256) (rest : List Nat) :
    percentDecodeBytes (pctTriple b ++ rest) = b :: percentDecodeBytes rest := by
  show percentDecodeBytes
    (0x25 :: hexDigitByte (b / 16) :: hexDigitByte (b % 16) :: rest) = _
  rw [percentDecodeBytes.eq_def]
  have d1 : b / 16 < 16 := by omega
  have d2 : b % 16 < 16 := by omega
  simp only [hexDigit_hex _ d1, hexDigit_hex _ d2, Bool.and_self, if_pos,
    hexDigit_val _ d1, hexDigit_val _ d2]
  have : b / 16 * 16 + b % 16 = b := by omega
  rw [this]

theorem pd_triples (bs : List Nat) (hb : ∀ b ∈ bs, b < 256) (rest : List Nat) :
    percentDecodeBytes (bs.flatMap pctTriple ++ rest) = bs ++ percentDecodeBytes rest := by
  induction bs with
  | nil => simp
  | cons b tail ih =>
    simp only [List.flatMap_cons, List.append_assoc, List.cons_append]
    rw [pd_triple b (hb b (by simp)), ih (fun x hx => hb x (by simp [hx]))]

/-- Every byte of the generic percent encoder's output is either a safe
character the encoder passed through, the percent sign, or a hex digit. -/
theorem pctEncode_byte_shape (safe : Nat → Bool) (cs : List Nat)
    (hv : ∀ c ∈ cs, validScalar c) :
    ∀ b ∈ pctEncode safe cs,
      (safe b = true ∧ b ∈ cs) ∨ b = 0x25 ∨
        ((0x30 ≤ b ∧ b ≤ 0x39) ∨ (0x41 ≤ b ∧ b ≤ 0x46)) := by
  intro b hb
  unfold pctEncode at hb
  rw [List.mem_flatMap] at hb
  obtain ⟨c, hc, hmem⟩ := hb
  by_cases hs : safe c = true
  · rw [if_pos hs] at hmem
    simp at hmem
    subst hmem
    exact Or.inl ⟨hs, hc⟩
  · rw [if_neg hs] at hmem
    rw [List.mem_flatMap] at hmem
    obtain ⟨byte, hbyte, htrip⟩ := hmem
    have hlt : byte < 256 := by
      have := hv c hc
      exact utf8EncodeChar_lt c (by unfold validScalar at this; omega) byte hbyte
    unfold pctTriple at htrip
    simp at htrip
    rcases htrip with rfl | rfl | rfl
    · exact Or.inr (Or.inl rfl)
    · exact Or.inr (Or.inr (hexDigit_range _ (by omega)))
    · exact Or.inr (Or.inr (hexDigit_range _ (by omega)))

theorem pd_pctEncode (safe : Nat → Bool) (cs : List Nat)
    (hsafe : ∀ c, safe c = true → c < 0x80 ∧ c ≠ 0x25)
    (hv : ∀ c ∈ cs, validScalar c) :
    percentDecodeBytes (pctEncode safe cs) = utf8EncodeAll cs := by
  induction cs with
  | nil => rfl
  | cons c tail ih =>
    have hcv : validScalar c := hv c (by simp)
    have htail : ∀ x ∈ tail, validScalar x := fun x hx => hv x (by simp [hx])
    simp only [pctEncode, List.flatMap_cons, utf8EncodeAll]
    by_cases hs : safe c = true
    · rw [if_pos hs]
      obtain ⟨hlt, hne⟩ := hsafe c hs
      simp only [List.cons_append, List.nil_append]
      rw [pd_safe c hne]
      rw [utf8EncodeChar, if_pos hlt]
      simp only [List.cons_append, List.nil_append, List.cons.injEq, true_and]
      have := ih htail
      simpa [pctEncode, utf8EncodeAll] using this
    · rw [if_neg hs]
      have hbytes : ∀ b ∈ utf8EncodeChar c, b < 256 :=
        utf8EncodeChar_lt c (by unfold validScalar at hcv; omega)
      rw [pd_triples _ hbytes]
      have := ih htail
      simpa [pctEncode, utf8EncodeAll] using this

/-! ## The decode chain applied to encoder output -/

theorem pctEncode_ascii (safe : Nat → Bool) (cs : List Nat)
    (hsafe : ∀ c, safe c = true → c < 0x80) (hv : ∀ c ∈ cs, validScalar c) :
    ∀ b ∈ pctEncode safe cs, b < 0x80 := by
  intro b hb
  rcases pctEncode_byte_shape safe cs hv b hb with ⟨hs, _⟩ | rfl | hr
  · exact hsafe b hs
  · omega
  · rcases hr with ⟨h1, h2⟩ | ⟨h1, h2⟩ <;> omega

theorem plusToSpace_eq (s : JSString) (h : ∀ c ∈ s, c ≠ '+') : plusToSpace s = s := by
  unfold plusToSpace
  induction s with
  | nil => rfl
  | cons c rest ih =>
    simp only [List.map_cons]
    rw [if_neg (h c (by simp)), ih (fun x hx => h x (by simp [hx]))]

/-- The core decode chain (`URLSearchParams` value decoding minus the `+`
step) recovers the original string from any generic percent encoding
whose safe set is ASCII and excludes the percent sign. -/
theorem decodeChainCore (safe : Nat → Bool) (s : JSString)
    (hsafe : ∀ c, safe c = true → c < 0x80 ∧ c ≠ 0x25) :
    bytesToChars (utf8DecodeReplace (percentDecodeBytes
      (utf8Bytes (bytesToChars (pctEncode safe (charsToPoints s)))))) = s := by
  have hv := charsToPoints_valid s
  have hascii : ∀ b ∈ pctEncode safe (charsToPoints s), b < 0x80 :=
    pctEncode_ascii safe _ (fun c hc => (hsafe c hc).1) hv
  have h1 : utf8Bytes (bytesToChars (pctEncode safe (charsToPoints s))) =
      pctEncode safe (charsToPoints s) := by
    unfold utf8Bytes
    rw [show charsToPoints (bytesToChars (pctEncode safe (charsToPoints s))) =
        pctEncode safe (charsToPoints s) from
      bytesToChars_points _ (fun b hb => by have := hascii b hb; omega)]
    exact utf8EncodeAll_ascii _ hascii
  rw [h1, pd_pctEncode safe _ hsafe hv, utf8DecodeReplace_encodeAll _ hv,
    bytesToChars_points_inv]

theorem uriUnreserved_safe (c : Nat) (h : uriUnreserved c = true) :
    c < 0x80 ∧ c ≠ 0x25 ∧ c ≠ 0x2B := by
  unfold uriUnreserved at h
  simp at h
  omega

theorem formSafe_safe (c : Nat) (h : formSafe c = true) :
    c < 0x80 ∧ c ≠ 0x25 ∧ c ≠ 0x2B ∧ c ≠ 0x20 := by
  unfold formSafe at h
  simp at h
  omega

theorem formSafeSp_safe (c : Nat) (h : formSafeSp c = true) :
    c < 0x80 ∧ c ≠ 0x25 ∧ c ≠ 0x2B := by
  unfold formSafeSp at h
  simp [formSafe] at h
  omega

theorem pctEncode_no_plus (safe : Nat → Bool) (cs : List Nat)
    (hsafe : ∀ c, safe c = true → c < 0x80 ∧ c ≠ 0x25 ∧ c ≠ 0x2B)
    (hv : ∀ c ∈ cs, validScalar c) :
    ∀ ch ∈ bytesToChars (pctEncode safe cs), ch ≠ '+' := by
  intro ch hch
  unfold bytesToChars at hch
  rw [List.mem_map] at hch
  obtain ⟨b, hb, rfl⟩ := hch
  have hshape := pctEncode_byte_shape safe cs hv b hb
  have hlt : b < 0x80 := by
    rcases hshape with ⟨hs, _⟩ | rfl | hr
    · exact (hsafe b hs).1
    · omega
    · rcases hr with ⟨h1, h2⟩ | ⟨h1, h2⟩ <;> omega
  have hne : b ≠ 0x2B := by
    rcases hshape with ⟨hs, _⟩ | rfl | hr
    · exact (hsafe b hs).2.2
    · omega
    · rcases hr with ⟨h1, h2⟩ | ⟨h1, h2⟩ <;> omega
  intro hplus
  have : (Char.ofNat b).toNat = ('+' : Char).toNat := by rw [hplus]
  rw [toNat_ofNat_lt b (by omega)] at this
  exact hne (by simpa using this)

/-- The url-component round trip: `URLSearchParams` value decoding
recovers any string from its `encodeURIComponent` encoding. -/
theorem formUrlDecode_encodeURIComponent (s : JSString) :
    formUrlDecode (encodeURIComponentJS s) = s := by
  unfold formUrlDecode encodeURIComponentJS
  rw [plusToSpace_eq _ (pctEncode_no_plus uriUnreserved _ uriUnreserved_safe
    (charsToPoints_valid s))]
  exact decodeChainCore uriUnreserved s (fun c hc => ⟨(uriUnreserved_safe c hc).1,
    (uriUnreserved_safe c hc).2.1⟩)

theorem plusToSpace_bytes (bs : List Nat) (h : ∀ b ∈ bs, b < 0x80) :
    plusToSpace (bytesToChars bs) =
      bytesToChars (bs.map fun b => if b = 0x2B then 0x20 else b) := by
  unfold plusToSpace bytesToChars
  rw [List.map_map, List.map_map]
  apply List.map_congr_left
  intro b hb
  simp only [Function.comp]
  by_cases hplus : b = 0x2B
  · subst hplus
    decide
  · rw [if_neg, if_neg hplus]
    intro hc
    have : (Char.ofNat b).toNat = ('+' : Char).toNat := by rw [hc]
    rw [toNat_ofNat_lt b (by have := h b hb; omega)] at this
    exact hplus (by simpa using this)

/-- After the `+`-to-space step, the form-urlencoded serializer output is
exactly a generic percent encoding with safe set `formSafeSp`. -/
theorem formUrlEncode_as_pctEncode (s : JSString) :
    plusToSpace (formUrlEncode s) =
      bytesToChars (pctEncode formSafeSp (charsToPoints s)) := by
  unfold formUrlEncode
  have hv := charsToPoints_valid s
  set cs := charsToPoints s with hcs
  have hbytes : ∀ b ∈ (cs.flatMap fun c =>
      if c = 0x20 then [0x2B]
      else if formSafe c then [c]
      else (utf8EncodeChar c).flatMap pctTriple), b < 0x80 := by
    intro b hb
    rw [List.mem_flatMap] at hb
    obtain ⟨c, hc, hmem⟩ := hb
    by_cases h20 : c = 0x20
    · simp [h20] at hmem; omega
    · rw [if_neg h20] at hmem
      by_cases hfs : formSafe c
      · rw [if_pos hfs] at hmem
        simp at hmem
        subst hmem
        exact (formSafe_safe _ hfs).1
      · rw [if_neg hfs] at hmem
        rw [List.mem_flatMap] at hmem
        obtain ⟨byte, hbyte, htrip⟩ := hmem
        have := hv c hc
        have hlt : byte < 256 :=
          utf8EncodeChar_lt c (by unfold validScalar at this; omega) byte hbyte
        unfold pctTriple at htrip
        simp at htrip
        rcases htrip with rfl | rfl | rfl
        · omega
        · have := hexDigit_range (byte / 16) (by omega); omega
        · have := hexDigit_range (byte % 16) (by omega); omega
  rw [plusToSpace_bytes _ hbytes]
  unfold bytesToChars
  congr 1
  rw [List.map_flatMap]
  unfold pctEncode
  apply List.flatMap_congr
  intro c hc
  by_cases h20 : c = 0x20
  · subst h20
    have : formSafeSp 0x20 = true := by decide
    simp [this]
  · rw [if_neg h20]
    by_cases hfs : formSafe c
    · have hsp : formSafeSp c = true := by unfold formSafeSp; simp [hfs]
      rw [if_pos hfs, if_pos hsp]
      have := (formSafe_safe c hfs).2.2.1
      simp [this]
    · have hsp : formSafeSp c = false := by
        unfold formSafeSp
        simp [hfs, h20]
      rw [if_neg hfs, if_neg (by simp [hsp])]
      rw [List.map_flatMap]
      apply List.flatMap_congr
      intro byte hbyte
      have := hv c hc
      have hlt : byte < 256 :=
        utf8EncodeChar_lt c (by unfold validScalar at this; omega) byte hbyte
      unfold pctTriple
      have r1 := hexDigit_range (byte / 16) (by omega)
      have r2 := hexDigit_range (byte % 16) (by omega)
      simp only [List.map_cons, List.map_nil]
      rw [if_neg (by omega), if_neg (by omega), if_neg (by omega)]

/-- The form-urlencoded round trip: `URLSearchParams` value decoding
recovers any string from its form-urlencoded serialization. -/
theorem formUrlDecode_formUrlEncode (s : JSString) :
    formUrlDecode (formUrlEncode s) = s := by
  unfold formUrlDecode
  rw [formUrlEncode_as_pctEncode]
  exact decodeChainCore formSafeSp s (fun c hc => ⟨(formSafeSp_safe c hc).1,
    (formSafeSp_safe c hc).2.1⟩)

/-! ## Splitting and joining -/

theorem splitAtFirst_not_mem (sep : Char) (s : JSString) (h : sep ∉ s) :
    splitAtFirst sep s = (s, none) := by
  induction s with
  | nil => rfl
  | cons c rest ih =>
    unfold splitAtFirst
    rw [if_neg (fun e => h (by simp [e]))]
    rw [ih (fun hm => h (by simp [hm]))]

theorem splitAtFirst_append (sep : Char) (a b : JSString) (h : sep ∉ a) :
    splitAtFirst sep (a ++ sep :: b) = (a, some b) := by
  induction a with
  | nil => simp [splitAtFirst]
  | cons c rest ih =>
    simp only [List.cons_append]
    unfold splitAtFirst
    rw [if_neg (fun e => h (by simp [e]))]
    rw [ih (fun hm => h (by simp [hm]))]

theorem splitOnChar_not_mem (sep : Char) (s : JSString) (h : sep ∉ s) :
    splitOnChar sep s = [s] := by
  induction s with
  | nil => rfl
  | cons c rest ih =>
    unfold splitOnChar
    rw [if_neg (fun e => h (by simp [e]))]
    rw [ih (fun hm => h (by simp [hm]))]

theorem splitOnChar_append (sep : Char) (a rest : JSString) (h : sep ∉ a) :
    splitOnChar sep (a ++ sep :: rest) = a :: splitOnChar sep rest := by
  induction a with
  | nil => simp [splitOnChar]
  | cons c a2 ih =>
    have hc : ¬ (c = sep) := fun e => h (by simp [e])
    have ih2 := ih (fun hm => h (by simp [hm]))
    simp only [List.cons_append]
    rw [splitOnChar]
    simp only [ih2, if_neg hc]

theorem splitOnChar_join (sep : Char) (xs : List JSString) (hne : xs ≠ [])
    (h : ∀ x ∈ xs, sep ∉ x) :
    splitOnChar sep (joinSep sep xs) = xs := by
  induction xs with
  | nil => exact absurd rfl hne
  | cons x xs ih =>
    cases xs with
    | nil =>
      show splitOnChar sep (joinSep sep [x]) = [x]
      rw [joinSep, splitOnChar_not_mem sep x (h x (by simp))]
    | cons y ys =>
      show splitOnChar sep (joinSep sep (x :: y :: ys)) = x :: y :: ys
      rw [joinSep, splitOnChar_append sep x _ (h x (by simp))]
      rw [ih (List.cons_ne_nil y ys) (fun z hz => h z (by simp [hz]))]
      exact List.cons_ne_nil y ys

/-! ## Query-string round trip -/

theorem ne_of_toNat_ne (a b : Char) (h : a.toNat ≠ b.toNat) : a ≠ b :=
  fun e => h (congrArg Char.toNat e)

/-- Every character of the form-urlencoded serializer output is ASCII and
is none of the structural characters of a URL query (`&`, `=`, `#`, `?`). -/
theorem formUrlEncode_char_props (x : JSString) :
    ∀ ch ∈ formUrlEncode x, ch.toNat < 0x80 ∧ ch.toNat ≠ 0x26 ∧ ch.toNat ≠ 0x3D ∧
      ch.toNat ≠ 0x23 ∧ ch.toNat ≠ 0x3F := by
  intro ch hch
  unfold formUrlEncode bytesToChars at hch
  rw [List.mem_map] at hch
  obtain ⟨b, hb, rfl⟩ := hch
  have hv := charsToPoints_valid x
  have hyp : b < 0x80 ∧ b ≠ 0x26 ∧ b ≠ 0x3D ∧ b ≠ 0x23 ∧ b ≠ 0x3F := by
    rw [List.mem_flatMap] at hb
    obtain ⟨c, hc, hmem⟩ := hb
    by_cases h20 : c = 0x20
    · simp [h20] at hmem; omega
    · rw [if_neg h20] at hmem
      by_cases hfs : formSafe c
      · rw [if_pos hfs] at hmem
        simp at hmem
        subst hmem
        unfold formSafe at hfs
        simp at hfs
        omega
      · rw [if_neg hfs] at hmem
        rw [List.mem_flatMap] at hmem
        obtain ⟨byte, hbyte, htrip⟩ := hmem
        have := hv c hc
        have hlt : byte < 256 :=
          utf8EncodeChar_lt c (by unfold validScalar at this; omega) byte hbyte
        unfold pctTriple at htrip
        simp at htrip
        rcases htrip with rfl | rfl | rfl
        · omega
        · have := hexDigit_range (byte / 16) (by omega); omega
        · have := hexDigit_range (byte % 16) (by omega); omega
  rw [toNat_ofNat_lt b (by omega)]
  exact hyp

/-- One serialized `name=value` piece parses back to its pair. -/
theorem parsePair_enc (k v : JSString) :
    parsePair (formUrlEncode k ++ '=' :: formUrlEncode v) = (k, v) := by
  unfold parsePair
  have hne : '=' ∉ formUrlEncode k := by
    intro hm
    have := (formUrlEncode_char_props k '=' hm).2.2.1
    simp at this
  rw [splitAtFirst_append _ _ _ hne]
  show (formUrlDecode (formUrlEncode k), formUrlDecode (formUrlEncode v)) = (k, v)
  rw [formUrlDecode_formUrlEncode, formUrlDecode_formUrlEncode]

theorem amp_not_mem_piece (k v : JSString) :
    '&' ∉ formUrlEncode k ++ '=' :: formUrlEncode v := by
  intro hm
  rw [List.mem_append] at hm
  rcases hm with hm | hm
  · have := (formUrlEncode_char_props k '&' hm).2.1
    simp at this
  · rw [List.mem_cons] at hm
    rcases hm with hm | hm
    · exact absurd hm.symm (by decide)
    · have := (formUrlEncode_char_props v '&' hm).2.1
      simp at this

theorem joinSep_cons_ex (sep : Char) (x : JSString) (xs : List JSString) :
    ∃ r, joinSep sep (x :: xs) = x ++ r := by
  cases xs with
  | nil => exact ⟨[], by simp [joinSep]⟩
  | cons y ys => exact ⟨sep :: joinSep sep (y :: ys), rfl⟩

/-- The query parser inverts the form-urlencoded serializer. -/
theorem parseSearch_serializeQuery (ps : List (JSString × JSString)) :
    parseSearch (serializeQuery ps) = ps := by
  cases ps with
  | nil => rfl
  | cons p ps =>
    unfold serializeQuery parseSearch
    set pieces := (p :: ps).map
      (fun q => formUrlEncode q.1 ++ '=' :: formUrlEncode q.2) with hpieces
    have hppne : ∀ x ∈ pieces, x ≠ [] := by
      intro x hx
      rw [hpieces, List.mem_map] at hx
      obtain ⟨q, _, rfl⟩ := hx
      intro he
      rw [List.append_eq_nil] at he
      exact absurd he.2 (List.cons_ne_nil _ _)
    have hamp : ∀ x ∈ pieces, '&' ∉ x := by
      intro x hx
      rw [hpieces, List.mem_map] at hx
      obtain ⟨q, _, rfl⟩ := hx
      exact amp_not_mem_piece q.1 q.2
    have hpne : pieces ≠ [] := by rw [hpieces]; simp
    -- the serialized query does not start with '?'
    have hstrip : (if (joinSep '&' pieces).head? = some '?' then (joinSep '&' pieces).tail
        else joinSep '&' pieces) = joinSep '&' pieces := by
      rw [if_neg]
      intro hhead
      have hp1 : pieces = (formUrlEncode p.1 ++ '=' :: formUrlEncode p.2) :: ps.map
          (fun q => formUrlEncode q.1 ++ '=' :: formUrlEncode q.2) := by
        rw [hpieces]; simp
      obtain ⟨r, hr⟩ := joinSep_cons_ex '&' (formUrlEncode p.1 ++ '=' :: formUrlEncode p.2)
        (ps.map (fun q => formUrlEncode q.1 ++ '=' :: formUrlEncode q.2))
      rw [hp1, hr] at hhead
      cases hk : formUrlEncode p.1 with
      | nil =>
        rw [hk] at hhead
        simp at hhead
      | cons c0 k2 =>
        rw [hk] at hhead
        simp at hhead
        have := (formUrlEncode_char_props p.1 c0 (by rw [hk]; simp)).2.2.2.2
        rw [hhead] at this
        simp at this
    simp only [hstrip]
    rw [splitOnChar_join '&' pieces hpne hamp]
    have hfilter : pieces.filter (fun x => x ≠ []) = pieces := by
      apply List.filter_eq_self.mpr
      intro x hx
      simpa using hppne x hx
    rw [hfilter, hpieces, List.map_map]
    have : ∀ q ∈ (p :: ps), (parsePair ∘ fun q =>
        formUrlEncode q.1 ++ '=' :: formUrlEncode q.2) q = q := by
      intro q _
      simp only [Function.comp]
      exact parsePair_enc q.1 q.2
    calc ((p :: ps).map (parsePair ∘ fun q => formUrlEncode q.1 ++ '=' :: formUrlEncode q.2))
        = (p :: ps).map id := List.map_congr_left (by simpa using this)
      _ = p :: ps := List.map_id _

/-! ## URL round trip and cleanup -/

theorem splitAtFirst_fst_not_mem (sep : Char) (s : JSString) :
    sep ∉ (splitAtFirst sep s).1 := by
  induction s with
  | nil => simp [splitAtFirst]
  | cons c rest ih =>
    unfold splitAtFirst
    by_cases hc : c = sep
    · simp [hc]
    · simp only [if_neg hc]
      intro hm
      rw [List.mem_cons] at hm
      rcases hm with hm | hm
      · exact hc hm.symm
      · exact ih hm

theorem splitAtFirst_fst_subset (sep : Char) (s : JSString) :
    ∀ c ∈ (splitAtFirst sep s).1, c ∈ s := by
  induction s with
  | nil => simp [splitAtFirst]
  | cons c rest ih =>
    unfold splitAtFirst
    by_cases hc : c = sep
    · simp [hc]
    · simp only [if_neg hc]
      intro x hx
      rw [List.mem_cons] at hx
      rcases hx with hx | hx
      · simp [hx]
      · simp [ih x hx]

theorem parseURL_base_clean (u : JSString) :
    '?' ∉ (parseURL u).base ∧ '#' ∉ (parseURL u).base := by
  unfold parseURL
  constructor
  · exact splitAtFirst_fst_not_mem '?' _
  · intro hm
    exact splitAtFirst_fst_not_mem '#' u
      (splitAtFirst_fst_subset '?' _ _ hm)

theorem joinSep_mem (sep : Char) (xs : List JSString) :
    ∀ c ∈ joinSep sep xs, c = sep ∨ ∃ x ∈ xs, c ∈ x := by
  induction xs with
  | nil => simp [joinSep]
  | cons x xs ih =>
    cases xs with
    | nil =>
      intro c hc
      rw [show joinSep sep [x] = x from rfl] at hc
      exact Or.inr ⟨x, by simp, hc⟩
    | cons y ys =>
      intro c hc
      rw [show joinSep sep (x :: y :: ys) = x ++ sep :: joinSep sep (y :: ys) from rfl] at hc
      rw [List.mem_append] at hc
      rcases hc with hc | hc
      · exact Or.inr ⟨x, by simp, hc⟩
      · rw [List.mem_cons] at hc
        rcases hc with hc | hc
        · exact Or.inl hc
        · rcases ih c hc with h | ⟨z, hz, hcz⟩
          · exact Or.inl h
          · exact Or.inr ⟨z, by simp [hz], hcz⟩

theorem serializeQuery_char_ne (ps : List (JSString × JSString)) :
    ∀ c ∈ serializeQuery ps, c ≠ '?' ∧ c ≠ '#' := by
  intro c hc
  unfold serializeQuery at hc
  rcases joinSep_mem '&' _ c hc with rfl | ⟨piece, hp, hcp⟩
  · exact ⟨by decide, by decide⟩
  · rw [List.mem_map] at hp
    obtain ⟨q, _, rfl⟩ := hp
    rw [List.mem_append] at hcp
    rcases hcp with hcp | hcp
    · have := formUrlEncode_char_props q.1 c hcp
      exact ⟨ne_of_toNat_ne c '?' (by simpa using this.2.2.2.2),
        ne_of_toNat_ne c '#' (by simpa using this.2.2.2.1)⟩
    · rw [List.mem_cons] at hcp
      rcases hcp with rfl | hcp
      · exact ⟨by decide, by decide⟩
      · have := formUrlEncode_char_props q.2 c hcp
        exact ⟨ne_of_toNat_ne c '?' (by simpa using this.2.2.2.2),
          ne_of_toNat_ne c '#' (by simpa using this.2.2.2.1)⟩

/-- `parseURL` inverts `serializeURL` on any record whose base is free of
the query and fragment delimiters (as every parsed base is). -/
theorem parseURL_serializeURL (r : URLRec) (hq : '?' ∉ r.base) (hh : '#' ∉ r.base) :
    parseURL (serializeURL r) = r := by
  obtain ⟨base, params, fragment⟩ := r
  simp only at hq hh
  have hqpart : ∀ c ∈ (if params = [] then ([] : JSString)
      else '?' :: serializeQuery params), c ≠ '#' := by
    intro c hc
    by_cases hps : params = []
    · rw [if_pos hps] at hc; simp at hc
    · rw [if_neg hps] at hc
      rw [List.mem_cons] at hc
      rcases hc with rfl | hc
      · decide
      · exact (serializeQuery_char_ne params c hc).2
  have hnomem : '#' ∉ base ++ (if params = [] then ([] : JSString)
      else '?' :: serializeQuery params) := by
    intro hm
    rw [List.mem_append] at hm
    rcases hm with hm | hm
    · exact hh hm
    · exact hqpart '#' hm rfl
  have hsplit1 : splitAtFirst '#' (serializeURL ⟨base, params, fragment⟩) =
      (base ++ (if params = [] then ([] : JSString) else '?' :: serializeQuery params),
        fragment) := by
    cases fragment with
    | none =>
      have hser : serializeURL ⟨base, params, none⟩ =
          base ++ (if params = [] then ([] : JSString)
            else '?' :: serializeQuery params) := by
        unfold serializeURL
        simp
      rw [hser]
      exact splitAtFirst_not_mem '#' _ hnomem
    | some f =>
      have hser : serializeURL ⟨base, params, some f⟩ =
          (base ++ (if params = [] then ([] : JSString)
            else '?' :: serializeQuery params)) ++ '#' :: f := by
        unfold serializeURL
        simp [List.append_assoc]
      rw [hser]
      exact splitAtFirst_append '#' _ f hnomem
  have hsplit2 : splitAtFirst '?' (base ++ (if params = [] then ([] : JSString)
      else '?' :: serializeQuery params)) =
      (base, if params = [] then none else some (serializeQuery params)) := by
    by_cases hps : params = []
    · simp only [if_pos hps, List.append_nil]
      exact splitAtFirst_not_mem '?' base hq
    · simp only [if_neg hps]
      exact splitAtFirst_append '?' base _ hq
  unfold parseURL
  rw [hsplit1]
  simp only
  rw [hsplit2]
  by_cases hps : params = []
  · simp [hps]
  · simp only [if_neg hps]
    simp [parseSearch_serializeQuery]

theorem cleanupURL_parse (u : JSString) :
    parseURL (cleanupURL u) =
      ⟨(parseURL u).base, deleteParam URL_PARAM (parseURL u).params,
        (parseURL u).fragment⟩ := by
  unfold cleanupURL
  exact parseURL_serializeURL _ (parseURL_base_clean u).1 (parseURL_base_clean u).2

theorem deleteParam_idem (name : JSString) (ps : List (JSString × JSString)) :
    deleteParam name (deleteParam name ps) = deleteParam name ps := by
  unfold deleteParam
  rw [List.filter_filter]
  simp

theorem cleanupURL_idem (u : JSString) :
    cleanupURL (cleanupURL u) = cleanupURL u := by
  have h1 : cleanupURL (cleanupURL u) = serializeURL
      { base := (parseURL (cleanupURL u)).base
        params := deleteParam URL_PARAM (parseURL (cleanupURL u)).params
        fragment := (parseURL (cleanupURL u)).fragment } := rfl
  rw [h1, cleanupURL_parse]
  simp only
  rw [deleteParam_idem]
  rfl

/-! ## Prompt extraction from encoder output -/

theorem pctTokens_no_pct (s : JSString) (h : '%' ∉ s) :
    pctTokens s = some (s.map Sum.inl) := by
  induction s with
  | nil => rfl
  | cons c rest ih =>
    have hc : c ≠ '%' := fun e => h (by simp [e])
    rw [pctTokens.eq_def]
    split
    · rename_i he; exact absurd he (List.cons_ne_nil _ _)
    · rename_i he; exfalso; injection he with h1 _; exact hc h1
    · rename_i he; exfalso; injection he with h1 _; exact hc h1
    · rename_i he
      injection he with h1 h2
      rw [← h1, ← h2, ih (fun hm => h (by simp [hm]))]
      simp

theorem decodeTokensF_inl (s : JSString) (fuel : Nat) (hf : s.length ≤ fuel) :
    decodeTokensF fuel (s.map Sum.inl) = some s := by
  induction s generalizing fuel with
  | nil => cases fuel <;> rfl
  | cons c rest ih =>
    cases fuel with
    | zero => simp at hf
    | succ f =>
      simp only [List.map_cons]
      rw [decodeTokensF]
      rw [ih f (by simp at hf; omega)]
      rfl

theorem decodeURIComponentJS_no_pct (s : JSString) (h : '%' ∉ s) :
    decodeURIComponentJS s = some s := by
  unfold decodeURIComponentJS
  rw [pctTokens_no_pct s h]
  show decodeTokensF (s.map Sum.inl).length (s.map Sum.inl) = some s
  exact decodeTokensF_inl s _ (by simp)

/-- Every character of `encodeURIComponent` output is ASCII and none of
the query-structural characters. -/
theorem encodeURIComponentJS_char_props (x : JSString) :
    ∀ ch ∈ encodeURIComponentJS x, ch.toNat < 0x80 ∧ ch.toNat ≠ 0x26 ∧ ch.toNat ≠ 0x3D ∧
      ch.toNat ≠ 0x23 ∧ ch.toNat ≠ 0x3F := by
  intro ch hch
  unfold encodeURIComponentJS bytesToChars at hch
  rw [List.mem_map] at hch
  obtain ⟨b, hb, rfl⟩ := hch
  have hshape := pctEncode_byte_shape uriUnreserved _ (charsToPoints_valid x) b hb
  have hyp : b < 0x80 ∧ b ≠ 0x26 ∧ b ≠ 0x3D ∧ b ≠ 0x23 ∧ b ≠ 0x3F := by
    rcases hshape with ⟨hs, _⟩ | rfl | hr
    · unfold uriUnreserved at hs
      simp at hs
      omega
    · omega
    · rcases hr with ⟨h1, h2⟩ | ⟨h1, h2⟩ <;> omega
  rw [toNat_ofNat_lt b (by omega)]
  exact hyp

/-- The query string of the URL the background worker builds is exactly
`bg_prompt=` followed by the encoded prompt. -/
theorem hrefSearch_buildGeminiUrl (s : JSString) :
    hrefSearch (buildGeminiUrl s) = URL_PARAM ++ '=' :: encodeURIComponentJS s := by
  have hshape : buildGeminiUrl s =
      GEMINI_BASE_URL ++ '?' :: (URL_PARAM ++ '=' :: encodeURIComponentJS s) := by
    unfold buildGeminiUrl
    simp [str, List.append_assoc]
  have hnohash : '#' ∉ buildGeminiUrl s := by
    rw [hshape]
    intro hm
    rw [List.mem_append] at hm
    rcases hm with hm | hm
    · revert hm; decide
    · rw [List.mem_cons] at hm
      rcases hm with hm | hm
      · exact absurd hm (by decide)
      · rw [List.mem_append] at hm
        rcases hm with hm | hm
        · revert hm; decide
        · rw [List.mem_cons] at hm
          rcases hm with hm | hm
          · exact absurd hm (by decide)
          · have := (encodeURIComponentJS_char_props s '#' hm).2.2.2.1
            simp at this
  have hnoq : '?' ∉ GEMINI_BASE_URL := by decide
  unfold hrefSearch
  rw [splitAtFirst_not_mem '#' _ hnohash]
  simp only
  rw [hshape, splitAtFirst_append '?' _ _ hnoq]

/-- Extraction inverts encoding up to the final `decodeURIComponent`:
the query parser recovers the prompt, and the explicit second decode
passes any percent-free prompt through unchanged. -/
theorem getPromptFromURL_enc (s : JSString) (hne : s ≠ []) (hnp : '%' ∉ s) :
    getPromptFromURL (URL_PARAM ++ '=' :: encodeURIComponentJS s) = some s := by
  have henc : ∀ ch ∈ encodeURIComponentJS s, ch ≠ '&' := by
    intro ch hch
    exact ne_of_toNat_ne ch '&'
      (by simpa using (encodeURIComponentJS_char_props s ch hch).2.1)
  have hamp : '&' ∉ URL_PARAM ++ '=' :: encodeURIComponentJS s := by
    intro hm
    rw [List.mem_append] at hm
    rcases hm with hm | hm
    · revert hm; decide
    · rw [List.mem_cons] at hm
      rcases hm with hm | hm
      · exact absurd hm (by decide)
      · exact henc '&' hm rfl
  have hq : (URL_PARAM ++ '=' :: encodeURIComponentJS s).head? ≠ some '?' := by
    rw [show (URL_PARAM ++ '=' :: encodeURIComponentJS s).head? = some 'b' from rfl]
    decide
  have hsplit : splitAtFirst '=' (URL_PARAM ++ '=' :: encodeURIComponentJS s) =
      (URL_PARAM, some (encodeURIComponentJS s)) :=
    splitAtFirst_append '=' _ _ (by decide)
  have hparse : parseSearch (URL_PARAM ++ '=' :: encodeURIComponentJS s) =
      [(URL_PARAM, formUrlDecode (encodeURIComponentJS s))] := by
    unfold parseSearch
    simp only [if_neg hq]
    rw [splitOnChar_not_mem '&' _ hamp]
    have hpiece : (URL_PARAM ++ '=' :: encodeURIComponentJS s) ≠ [] := by
      intro he
      rw [List.append_eq_nil] at he
      exact absurd he.2 (List.cons_ne_nil _ _)
    rw [List.filter_cons_of_pos (by simp [hpiece]), List.filter_nil]
    simp only [List.map_cons, List.map_nil]
    unfold parsePair
    rw [hsplit]
    show [(formUrlDecode URL_PARAM, formUrlDecode (encodeURIComponentJS s))] = _
    have : formUrlDecode URL_PARAM = URL_PARAM := by decide
    rw [this]
  unfold getPromptFromURL searchParamsGet
  rw [hparse, formUrlDecode_encodeURIComponent]
  show (if s = [] then none else decodeURIComponentJS s) = some s
  rw [if_neg hne]
  exact decodeURIComponentJS_no_pct s hnp

/-! ## Session guard -/

/-- The session guard's verdict is the login-pattern test on the URL:
all later branches return false. -/
theorem isUserLoggedOut_eq (u : JSString) (d : Doc) :
    isUserLoggedOut u d = LOGIN_PAGE_PATTERNS.any (fun p => containsSub p u) := by
  unfold isUserLoggedOut
  by_cases h : (LOGIN_PAGE_PATTERNS.any fun p => containsSub p u) = true
  · simp [h]
  · simp only [Bool.not_eq_true] at h
    rw [h]
    simp

/-! ## Submission trigger -/

theorem clickSendButtonF_attempt_le (fuel : Nat) (btn : Nat → ButtonState)
    (attempt maxAttempts : Nat) (h : attempt ≤ maxAttempts) :
    (clickSendButtonF fuel btn attempt maxAttempts).attempt ≤ maxAttempts := by
  induction fuel generalizing attempt with
  | zero => simpa [clickSendButtonF, SubmitOutcome.attempt]
  | succ f ih =>
    cases hb : btn attempt with
    | present d aria =>
      rw [clickSendButtonF, hb]
      dsimp only
      by_cases hd : buttonDisabled d aria = true
      · rw [if_pos hd]
        by_cases hlt : attempt < maxAttempts
        · rw [if_pos hlt]
          exact ih (attempt + 1) (by omega)
        · rw [if_neg hlt]
          simpa [SubmitOutcome.attempt]
      · rw [if_neg hd]
        simpa [SubmitOutcome.attempt]
    | absent =>
      rw [clickSendButtonF, hb]
      dsimp only
      by_cases hlt : attempt < maxAttempts
      · rw [if_pos hlt]
        exact ih (attempt + 1) (by omega)
      · rw [if_neg hlt]
        simpa [SubmitOutcome.attempt]

theorem clickSendButtonF_absent (fuel : Nat) (btn : Nat → ButtonState)
    (attempt maxAttempts : Nat) (hb : ∀ n, btn n = .absent)
    (hfuel : attempt + fuel = maxAttempts + 1) (hf : 1 ≤ fuel) :
    clickSendButtonF fuel btn attempt maxAttempts = .notFoundExhausted maxAttempts := by
  induction fuel generalizing attempt with
  | zero => omega
  | succ f ih =>
    rw [clickSendButtonF, hb attempt]
    dsimp only
    by_cases hlt : attempt < maxAttempts
    · rw [if_pos hlt]
      exact ih (attempt + 1) (by omega) (by omega)
    · rw [if_neg hlt]
      have : attempt = maxAttempts := by omega
      rw [this]

theorem clickSendButtonF_disabled (fuel : Nat) (btn : Nat → ButtonState)
    (attempt maxAttempts : Nat)
    (hb : ∀ n, ∃ d a, btn n = .present d a ∧ buttonDisabled d a = true)
    (hfuel : attempt + fuel = maxAttempts + 1) (hf : 1 ≤ fuel) :
    clickSendButtonF fuel btn attempt maxAttempts = .disabledExhausted maxAttempts := by
  induction fuel generalizing attempt with
  | zero => omega
  | succ f ih =>
    obtain ⟨d, a, hba, hd⟩ := hb attempt
    rw [clickSendButtonF, hba]
    dsimp only
    rw [if_pos hd]
    by_cases hlt : attempt < maxAttempts
    · rw [if_pos hlt]
      exact ih (attempt + 1) (by omega) (by omega)
    · rw [if_neg hlt]
      have : attempt = maxAttempts := by omega
      rw [this]

/-! ## Readiness waiter -/

theorem firstMatchBefore_none (sels : List JSString) (timeout : Nat)
    (events : List (Nat × Doc)) (h : ∀ ev ∈ events, queryWithSelectors sels ev.2 = none) :
    firstMatchBefore sels timeout events = none := by
  induction events with
  | nil => rfl
  | cons ev rest ih =>
    obtain ⟨t, d⟩ := ev
    rw [firstMatchBefore]
    by_cases ht : t < timeout
    · rw [if_pos ht, h (t, d) (by simp)]
      exact ih (fun x hx => h x (by simp [hx]))
    · rw [if_neg ht]
      exact ih (fun x hx => h x (by simp [hx]))

theorem firstMatchBefore_lt (sels : List JSString) (timeout : Nat)
    (events : List (Nat × Doc)) (t : Nat) (e : Nat)
    (h : firstMatchBefore sels timeout events = some (t, e)) : t < timeout := by
  induction events with
  | nil => simp [firstMatchBefore] at h
  | cons ev rest ih =>
    obtain ⟨t2, d⟩ := ev
    rw [firstMatchBefore] at h
    by_cases ht : t2 < timeout
    · rw [if_pos ht] at h
      cases hq : queryWithSelectors sels d with
      | some e2 =>
        rw [hq] at h
        injection h with h2
        injection h2 with h3 _
        omega
      | none =>
        rw [hq] at h
        exact ih h
    · rw [if_neg ht] at h
      exact ih h

/-! # Claim theorems -/

/-- C10: the Session Guard's boolean result is fully determined by the
URL alone: for any two documents the verdict coincides, and it is true
exactly when the URL contains one of the configured login-page pattern
substrings. -/
theorem session_guard_url_determined (u : JSString) (d1 d2 : Doc) :
    isUserLoggedOut u d1 = isUserLoggedOut u d2 ∧
    isUserLoggedOut u d1 = LOGIN_PAGE_PATTERNS.any (fun p => containsSub p u) := by
  constructor
  · rw [isUserLoggedOut_eq, isUserLoggedOut_eq]
  · exact isUserLoggedOut_eq u d1

/-- C7: with an authenticated-indicator element present in the document
and a URL matching no configured login-page pattern, the Session Guard
classifies the page as logged in (returns false), whatever else the
document contains, authentication-domain links included. -/
theorem session_guard_indicator_logged_in (u : JSString) (d : Doc)
    (hind : ∃ sel ∈ LOGGED_IN_INDICATORS, (d.querySelector sel).isSome = true)
    (hurl : ∀ p ∈ LOGIN_PAGE_PATTERNS, containsSub p u = false) :
    isUserLoggedOut u d = false := by
  rw [isUserLoggedOut_eq]
  simp only [List.any_eq_false]
  intro p hp
  simp [hurl p hp]

theorem session_guard_indicator_logged_in_witness :
    isUserLoggedOut (str "https://gemini.google.com/app") inputDoc = false :=
  session_guard_indicator_logged_in _ inputDoc
    ⟨str "div[contenteditable=\x22true\x22]", by decide, by decide⟩
    (by decide)

/-- C9: every inbound message receives exactly one reply, determined by
its shape: injectPrompt with a truthy prompt gets the asynchronous
success boolean, ping gets the alive status, and every other shape
(including injectPrompt with an empty or missing prompt) gets the
unknown_action status. -/
theorem message_listener_spec :
    (∀ m io, (onMessageListener m io).length = 1) ∧
    (∀ p io, p ≠ [] →
      onMessageListener ⟨some (str "injectPrompt"), some p⟩ io =
        [(.successReply io, true)]) ∧
    (∀ pr io, onMessageListener ⟨some (str "ping"), pr⟩ io =
      [(.statusReply (str "alive"), false)]) ∧
    (∀ m io, (m.action = some (str "injectPrompt") → promptTruthy m.prompt = false) →
      m.action ≠ some (str "ping") →
      onMessageListener m io = [(.statusReply (str "unknown_action"), false)]) := by
  refine ⟨?_, ?_, ?_, ?_⟩
  · intro m io
    unfold onMessageListener
    split
    · rfl
    · split <;> rfl
  · intro p io hp
    unfold onMessageListener
    rw [if_pos]
    simp [promptTruthy, hp]
  · intro pr io
    unfold onMessageListener
    rw [if_neg, if_pos (by simp)]
    have : ¬ (some (str "ping") = some (str "injectPrompt")) := by decide
    simp [this]
  · intro m io h1 h2
    unfold onMessageListener
    rw [if_neg, if_neg (by simpa using h2)]
    by_cases ha : m.action = some (str "injectPrompt")
    · simp [ha, h1 ha]
    · simp [ha]

theorem message_listener_spec_witness :
    onMessageListener ⟨some (str "injectPrompt"), some (str "hi")⟩ true =
      [(.successReply true, true)] ∧
    onMessageListener ⟨some (str "ping"), none⟩ false =
      [(.statusReply (str "alive"), false)] ∧
    onMessageListener ⟨some (str "injectPrompt"), some []⟩ false =
      [(.statusReply (str "unknown_action"), false)] ∧
    (onMessageListener ⟨some (str "injectPrompt"), some (str "hi")⟩ true).length = 1 :=
  ⟨message_listener_spec.2.1 (str "hi") true (by decide),
   message_listener_spec.2.2.1 none false,
   message_listener_spec.2.2.2 ⟨some (str "injectPrompt"), some []⟩ false
     (fun _ => rfl) (by decide),
   message_listener_spec.1 ⟨some (str "injectPrompt"), some (str "hi")⟩ true⟩

/-- C4: the Submission Trigger makes at most the configured maximum
number of attempts (the configured default being 3) whether the control
is absent or disabled, and exhausting all attempts reports a terminal
failure distinguishing a control never found from one found but still
disabled. -/
theorem submit_retry_bounded_and_distinguished :
    MAX_ATTEMPTS = 3 ∧
    (∀ btn maxA, 1 ≤ maxA → (clickSendButton btn 1 maxA).attempt ≤ maxA) ∧
    (∀ btn maxA, 1 ≤ maxA → (∀ n, btn n = .absent) →
      clickSendButton btn 1 maxA = .notFoundExhausted maxA) ∧
    (∀ btn maxA, 1 ≤ maxA →
      (∀ n, ∃ d a, btn n = .present d a ∧ buttonDisabled d a = true) →
      clickSendButton btn 1 maxA = .disabledExhausted maxA) := by
  refine ⟨rfl, ?_, ?_, ?_⟩
  · intro btn maxA h
    exact clickSendButtonF_attempt_le _ btn 1 maxA h
  · intro btn maxA h hb
    unfold clickSendButton
    exact clickSendButtonF_absent _ btn 1 maxA hb (by omega) (by omega)
  · intro btn maxA h hb
    unfold clickSendButton
    exact clickSendButtonF_disabled _ btn 1 maxA hb (by omega) (by omega)

theorem submit_retry_bounded_and_distinguished_witness :
    (clickSendButton absentButton 1 3).attempt ≤ 3 ∧
    clickSendButton absentButton 1 3 = .notFoundExhausted 3 ∧
    clickSendButton disabledButton 1 3 = .disabledExhausted 3 :=
  ⟨submit_retry_bounded_and_distinguished.2.1 absentButton 3 (by decide),
   submit_retry_bounded_and_distinguished.2.2.1 absentButton 3 (by decide) (fun _ => rfl),
   submit_retry_bounded_and_distinguished.2.2.2 disabledButton 3 (by decide)
     (fun _ => ⟨true, none, rfl, rfl⟩)⟩

/-- C6: when no selector ever matches, the Readiness Waiter rejects with
the explicit timeout condition exactly at the configured duration with
its mutation subscription disconnected; it never finishes later than the
configured duration; and when an element already matches at call time it
resolves immediately with it, without subscribing to mutations. -/
theorem wait_for_element_spec :
    (∀ sels tl timeout, queryWithSelectors sels tl.initial = none →
      tl.initial.hasBody = true →
      (∀ ev ∈ tl.events, queryWithSelectors sels ev.2 = none) →
      waitForElement sels tl timeout =
        ⟨.error (str "Element not found within timeout"), timeout, true, false⟩) ∧
    (∀ sels tl timeout, (waitForElement sels tl timeout).endTime ≤ timeout) ∧
    (∀ sels tl timeout e, queryWithSelectors sels tl.initial = some e →
      waitForElement sels tl timeout = ⟨.ok e, 0, false, false⟩) := by
  refine ⟨?_, ?_, ?_⟩
  · intro sels tl timeout hq hb hev
    unfold waitForElement
    rw [hq]
    dsimp only
    rw [if_pos hb, firstMatchBefore_none sels timeout tl.events hev]
  · intro sels tl timeout
    unfold waitForElement
    cases hq : queryWithSelectors sels tl.initial with
    | some e => simp
    | none =>
      dsimp only
      by_cases hb : tl.initial.hasBody = true
      · rw [if_pos hb]
        cases hm : firstMatchBefore sels timeout tl.events with
        | some te =>
          obtain ⟨t, e⟩ := te
          dsimp only
          exact Nat.le_of_lt (firstMatchBefore_lt sels timeout tl.events t e hm)
        | none => dsimp only; exact Nat.le_refl timeout
      · rw [if_neg hb]
        exact Nat.zero_le timeout
  · intro sels tl timeout e hq
    unfold waitForElement
    rw [hq]

theorem wait_for_element_spec_witness :
    waitForElement INPUT_FIELD_SELECTORS neverTimeline DOM_READY_TIMEOUT =
      ⟨.error (str "Element not found within timeout"), DOM_READY_TIMEOUT, true, false⟩ ∧
    waitForElement INPUT_FIELD_SELECTORS readyTimeline DOM_READY_TIMEOUT =
      ⟨.ok 7, 0, false, false⟩ :=
  ⟨wait_for_element_spec.1 _ _ _ (by decide) rfl (by simp [neverTimeline]),
   wait_for_element_spec.2.2 _ _ _ 7 (by decide)⟩

/-- C2: a run whose prompt extraction succeeded but whose Session Guard
classifies logged out terminates without attempting injection and
without URL cleanup, so the page URL — and in particular the bg_prompt
parameter with its original value — survives the run unchanged. -/
theorem logged_out_preserves_url (env : MainEnv) (p : JSString)
    (hp : getPromptFromURL (hrefSearch env.href) = some p) (hne : p ≠ [])
    (hout : isUserLoggedOut env.href env.docAtGuard = true) :
    mainRun env = ⟨.abortedLoggedOut, false, false, env.href⟩ ∧
    ∀ v, (URL_PARAM, v) ∈ (parseURL env.href).params →
      (URL_PARAM, v) ∈ (parseURL (mainRun env).finalHref).params := by
  have hrun : mainRun env = ⟨.abortedLoggedOut, false, false, env.href⟩ := by
    unfold mainRun
    rw [hp]
    dsimp only
    rw [if_neg hne, if_pos hout]
  exact ⟨hrun, fun v hv => by rw [hrun]; exact hv⟩

theorem logged_out_preserves_url_witness :
    mainRun envLoggedOut = ⟨.abortedLoggedOut, false, false, envLoggedOut.href⟩ ∧
    ∀ v, (URL_PARAM, v) ∈ (parseURL envLoggedOut.href).params →
      (URL_PARAM, v) ∈ (parseURL (mainRun envLoggedOut).finalHref).params :=
  logged_out_preserves_url envLoggedOut (str "hello") (by decide) (by decide) (by decide)

/-- C1 (amended): after the session check passes, a Readiness Waiter
rejection aborts the run with URL cleanup (the parsed final URL carries
no bg_prompt parameter), but a Text Injector failure reported through
its boolean returns without cleanup, leaving the page URL untouched. -/
theorem hard_abort_cleanup_paths (env : MainEnv) (p : JSString)
    (hp : getPromptFromURL (hrefSearch env.href) = some p) (hne : p ≠ [])
    (hin : isUserLoggedOut env.href env.docAtGuard = false) :
    ((∃ err, (waitForElement INPUT_FIELD_SELECTORS env.timeline DOM_READY_TIMEOUT).outcome
        = .error err) →
      mainRun env = ⟨.abortedError, false, true, cleanupURL env.href⟩ ∧
      ∀ q ∈ (parseURL (mainRun env).finalHref).params, q.1 ≠ URL_PARAM) ∧
    (∀ el, (waitForElement INPUT_FIELD_SELECTORS env.timeline DOM_READY_TIMEOUT).outcome
        = .ok el → env.injectOk = false →
      mainRun env = ⟨.abortedInjectFailed, true, false, env.href⟩) := by
  constructor
  · rintro ⟨err, herr⟩
    have hrun : mainRun env = ⟨.abortedError, false, true, cleanupURL env.href⟩ := by
      unfold mainRun
      rw [hp]
      dsimp only
      rw [if_neg hne, if_neg (by simp [hin]), herr]
    refine ⟨hrun, ?_⟩
    rw [hrun]
    dsimp only
    rw [cleanupURL_parse]
    dsimp only
    intro q hq
    unfold deleteParam at hq
    rw [List.mem_filter] at hq
    simpa using hq.2
  · intro el hok hinj
    unfold mainRun
    rw [hp]
    dsimp only
    rw [if_neg hne, if_neg (by simp [hin]), hok]
    dsimp only
    rw [if_neg (by simp [hinj])]

theorem hard_abort_cleanup_paths_witness :
    mainRun envWaitTimeout = ⟨.abortedError, false, true, cleanupURL envWaitTimeout.href⟩ ∧
    ∀ q ∈ (parseURL (mainRun envWaitTimeout).finalHref).params, q.1 ≠ URL_PARAM :=
  (hard_abort_cleanup_paths envWaitTimeout (str "hello") (by decide) (by decide)
    (by decide)).1 ⟨str "Element not found within timeout", rfl⟩

/-- C1 counterexample: a run that reaches the session-checked state and
whose Text Injector reports failure terminates without any cleanup
attempt, with the bg_prompt parameter (and its value) still present in
the page URL — refuting the claim that every such hard abort removes
it. -/
theorem inject_failure_no_cleanup_cex :
    (mainRun envInjectFail).outcome = .abortedInjectFailed ∧
    (mainRun envInjectFail).cleanupCalled = false ∧
    (URL_PARAM, str "hello") ∈ (parseURL (mainRun envInjectFail).finalHref).params := by
  decide

/-- C3 (amended): for every non-empty prompt containing no percent sign,
extraction from the URL built by the background worker returns exactly
the original prompt. -/
theorem prompt_roundtrip_no_percent (s : JSString) (hne : s ≠ []) (hnp : '%' ∉ s) :
    getPromptFromURL (hrefSearch (buildGeminiUrl s)) = some s := by
  rw [hrefSearch_buildGeminiUrl]
  exact getPromptFromURL_enc s hne hnp

/-- C3 counterexample: the prompt `100%` does not survive the URL round
trip — the double decode in extraction throws on the stray percent sign
and extraction yields null instead of the prompt. -/
theorem prompt_roundtrip_percent_cex :
    getPromptFromURL (hrefSearch (buildGeminiUrl (str "100%"))) = none ∧
    getPromptFromURL (hrefSearch (buildGeminiUrl (str "100%"))) ≠
      some (str "100%") := by
  decide

theorem prompt_roundtrip_no_percent_witness :
    getPromptFromURL (hrefSearch (buildGeminiUrl (str "こんにちは 👋"))) =
      some (str "こんにちは 👋") :=
  prompt_roundtrip_no_percent _ (by decide) (by decide)

/-- C5 (amended): cleanup is idempotent on every URL string; it removes
exactly the bg_prompt pairs from the parsed query while preserving the
base (scheme, host and path), every other pair and the fragment; and it
is a literal no-op on any canonically serialized URL without a
bg_prompt parameter. -/
theorem cleanup_idempotent_selective :
    (∀ u, cleanupURL (cleanupURL u) = cleanupURL u) ∧
    (∀ u, parseURL (cleanupURL u) =
      ⟨(parseURL u).base, deleteParam URL_PARAM (parseURL u).params,
        (parseURL u).fragment⟩) ∧
    (∀ u, deleteParam URL_PARAM (parseURL u).params = (parseURL u).params →
      serializeURL (parseURL u) = u → cleanupURL u = u) := by
  refine ⟨cleanupURL_idem, cleanupURL_parse, ?_⟩
  intro u hdel hser
  show serializeURL
    { base := (parseURL u).base, params := deleteParam URL_PARAM (parseURL u).params,
      fragment := (parseURL u).fragment } = u
  rw [hdel]
  exact hser

/-- C5 counterexample: cleanup of a URL without any bg_prompt parameter
is not a no-op on the URL string — re-serialization rewrites `%20` to
`+` — so the claim's unconditional no-op fails. -/
theorem cleanup_normalizes_cex :
    ((parseURL (str "https://gemini.google.com/app?q=a%20b")).params.all
      (fun q => q.1 ≠ URL_PARAM)) = true ∧
    cleanupURL (str "https://gemini.google.com/app?q=a%20b") ≠
      str "https://gemini.google.com/app?q=a%20b" ∧
    cleanupURL (str "https://gemini.google.com/app?q=a%20b") =
      str "https://gemini.google.com/app?q=a+b" := by
  decide

theorem cleanup_idempotent_selective_witness :
    cleanupURL (str "https://gemini.google.com/app?other=value") =
      str "https://gemini.google.com/app?other=value" :=
  cleanup_idempotent_selective.2.2 _ (by decide) (by decide)

/-- C8 (amended): prompt extraction is total — a missing parameter, an
empty value, and a value whose (already query-decoded) text fails
decodeURIComponent all yield null rather than an error — and a decodable
value yields the result of that second decode. -/
theorem get_prompt_total_spec :
    (∀ q, searchParamsGet URL_PARAM q = none → getPromptFromURL q = none) ∧
    (∀ q, searchParamsGet URL_PARAM q = some [] → getPromptFromURL q = none) ∧
    (∀ q v, searchParamsGet URL_PARAM q = some v → decodeURIComponentJS v = none →
      getPromptFromURL q = none) ∧
    (∀ q v t, searchParamsGet URL_PARAM q = some v → v ≠ [] →
      decodeURIComponentJS v = some t → getPromptFromURL q = some t) := by
  refine ⟨?_, ?_, ?_, ?_⟩
  · intro q hq
    unfold getPromptFromURL
    rw [hq]
  · intro q hq
    unfold getPromptFromURL
    rw [hq]
    dsimp only
    rw [if_pos rfl]
  · intro q v hq hv
    unfold getPromptFromURL
    rw [hq]
    dsimp only
    by_cases he : v = []
    · rw [if_pos he]
    · rw [if_neg he]
      exact hv
  · intro q v t hq hv ht
    unfold getPromptFromURL
    rw [hq]
    dsimp only
    rw [if_neg hv]
    exact ht

/-- C8 counterexample: the well-formed value `%2525` percent-decodes to
`%25`, but extraction returns `%` — the value is decoded twice, once by
the query parser and once by decodeURIComponent — so extraction does not
return the percent-decoded text. -/
theorem get_prompt_double_decode_cex :
    getPromptFromURL (str "bg_prompt=%2525") = some (str "%") ∧
    decodeURIComponentJS (str "%2525") = some (str "%25") ∧
    (str "%") ≠ (str "%25") := by
  decide

theorem get_prompt_total_spec_witness :
    getPromptFromURL (str "other=1") = none ∧
    getPromptFromURL (str "bg_prompt=") = none ∧
    getPromptFromURL (str "bg_prompt=%") = none ∧
    getPromptFromURL (str "bg_prompt=a%20b") = some (str "a b") :=
  ⟨get_prompt_total_spec.1 _ (by decide),
   get_prompt_total_spec.2.1 _ (by decide),
   get_prompt_total_spec.2.2.1 _ (str "%") (by decide) (by decide),
   get_prompt_total_spec.2.2.2 _ (str "a b") (str "a b") (by decide) (by decide)
     (by decide)⟩

end BetterGemini
